import Mathlib

set_option autoImplicit false

/-!
Verification of the `cerial` HTTP/1.1 request parser (src/cerial.rs).

Byte strings are modelled as `List Nat` (one entry per byte).  Rust string
operations (`trim`, `to_lowercase`, `find`, `parse`, `split`, ...) are
embedded byte-wise at the ASCII level, which is the level at which the
parser manipulates its input.  Machine integers (`u8`, `usize`) are
modelled as `Nat` with the overflow bound enforced where Rust's `parse`
would reject the input.  Fallible operations (`unwrap` on `read_exact`,
`read_line`) are modelled with `Option`: `none` is a panic of the Rust
code.  The `BufReader<TcpStream>` is modelled as the list of bytes that
the stream will deliver before EOF; reading consumes a prefix.
-/

/-- Bytes delivered by a stream, one `Nat` per byte. -/
abbrev Bytes := List Nat

/-- Bytes of an ASCII string literal; used to write concrete inputs. -/
def str (s : String) : Bytes := s.data.map Char.toNat

/-- Whitespace test matching `char::is_whitespace` on the ASCII range
(tab, LF, VT, FF, CR, space). -/
def isWs (b : Nat) : Bool := b = 9 || b = 10 || b = 11 || b = 12 || b = 13 || b = 32

/-- Model of `str::trim`: strip whitespace from both ends. -/
def trim (s : Bytes) : Bytes :=
  ((s.dropWhile isWs).reverse.dropWhile isWs).reverse

/-- ASCII lowercasing of one byte, as `str::to_lowercase` acts on ASCII. -/
def lowerByte (b : Nat) : Nat := if 65 ≤ b ∧ b ≤ 90 then b + 32 else b

/-- Model of `str::to_lowercase` (ASCII range). -/
def toLower (s : Bytes) : Bytes := s.map lowerByte

/-- Model of `str::find(c)`: byte index of the first occurrence of `c`. -/
def findByte (c : Nat) : Bytes → Option Nat
  | [] => none
  | b :: rest => if b = c then some 0 else (findByte c rest).map (· + 1)

/-- Decimal digit test. -/
def isDigit (b : Nat) : Bool := 48 ≤ b && b ≤ 57

/-- Accumulating decimal value of a digit string; `none` on a non-digit. -/
def digitsValAux : Bytes → Nat → Option Nat
  | [], acc => some acc
  | b :: rest, acc => if isDigit b then digitsValAux rest (acc * 10 + (b - 48)) else none

/-- Decimal value of a non-empty digit string. -/
def digitsVal : Bytes → Option Nat
  | [] => none
  | s => digitsValAux s 0

/-- Rust's integer `from_str` accepts one optional leading `+` sign
(a `-` is rejected for unsigned types). -/
def stripPlus (s : Bytes) : Bytes :=
  match s with
  | b :: rest => if b = 43 then rest else b :: rest
  | [] => []

/-- Model of `str::parse` for an unsigned integer type whose maximum value
is `cap` (`cap = 255` for `u8`): optional `+`, then decimal digits, and the
value must fit. -/
def parseRustNat (cap : Nat) (s : Bytes) : Option Nat :=
  match digitsVal (stripPlus s) with
  | some v => if v ≤ cap then some v else none
  | none => none

/-- Model of `str::parse::<u8>`. -/
def parseU8 (s : Bytes) : Option Nat := parseRustNat 255 s

/-- Model of `str::parse::<usize>` (64-bit). -/
def parseUsize (s : Bytes) : Option Nat := parseRustNat (2 ^ 64 - 1) s

/-- Value of one hexadecimal digit. -/
def hexDigitVal (b : Nat) : Option Nat :=
  if 48 ≤ b ∧ b ≤ 57 then some (b - 48)
  else if 97 ≤ b ∧ b ≤ 102 then some (b - 87)
  else if 65 ≤ b ∧ b ≤ 70 then some (b - 55)
  else none

/-- Accumulating hexadecimal value of a hex-digit string. -/
def hexValAux : Bytes → Nat → Option Nat
  | [], acc => some acc
  | b :: rest, acc =>
    match hexDigitVal b with
    | some d => hexValAux rest (acc * 16 + d)
    | none => none

/-- Hexadecimal value of a non-empty hex-digit string. -/
def hexVal : Bytes → Option Nat
  | [] => none
  | s => hexValAux s 0

/-- Model of `usize::from_str_radix(s, 16)`: optional `+`, hex digits,
64-bit bound. -/
def parseHexUsize (s : Bytes) : Option Nat :=
  match hexVal (stripPlus s) with
  | some v => if v ≤ 2 ^ 64 - 1 then some v else none
  | none => none

/-- Decimal rendering of `n`, most significant digit first (`fuel`-indexed
so that it is structurally recursive; `fuel = n + 1` always suffices). -/
def natToBytesAux : Nat → Nat → Bytes
  | 0, _ => []
  | fuel + 1, n => if n < 10 then [48 + n] else natToBytesAux fuel (n / 10) ++ [48 + n % 10]

/-- Decimal rendering of `n`, as Rust's `format!` renders an unsigned
integer: no sign, no leading zeros, `"0"` for zero. -/
def natToBytes (n : Nat) : Bytes := natToBytesAux (n + 1) n

/-- Model of `struct HttpVersion { major: u8, minor: u8 }`.  The `u8`
fields are modelled as `Nat`; the 255 bound is enforced by `parseU8`
exactly where Rust's `u8` parsing enforces it. -/
structure HttpVersion where
  major : Nat
  minor : Nat
  deriving DecidableEq

/-- Body of `HttpVersion::from_string` after the slash has been located:
split at the first `.` and parse both sides as `u8` (lines 21-27 of
cerial.rs). -/
def HttpVersion.parseMajorMinor (version_part : Bytes) : Option HttpVersion :=
  match findByte 46 version_part with
  | some dot_pos =>
    match parseU8 (version_part.take dot_pos), parseU8 (version_part.drop (dot_pos + 1)) with
    | some ma, some mi => some ⟨ma, mi⟩
    | _, _ => none
  | none => none

/-- Model of `HttpVersion::from_string`: locate the first `/` with
`str::find`, then parse `major.minor` from everything after it. -/
def HttpVersion.from_string (version_str : Bytes) : Option HttpVersion :=
  match findByte 47 version_str with
  | some slash_pos => HttpVersion.parseMajorMinor (version_str.drop (slash_pos + 1))
  | none => none

/-- Model of `HttpVersion::to_string`: `format!("HTTP/{}.{}", major, minor)`. -/
def HttpVersion.to_string (v : HttpVersion) : Bytes :=
  str "HTTP/" ++ natToBytes v.major ++ [46] ++ natToBytes v.minor

/-! Arithmetic facts about the digit renderer and the digit parsers. -/

theorem digitsValAux_append (xs ys : Bytes) (acc : Nat) :
    digitsValAux (xs ++ ys) acc =
      (digitsValAux xs acc).bind (fun a => digitsValAux ys a) := by
  induction xs generalizing acc with
  | nil => simp [digitsValAux]
  | cons b t ih =>
    by_cases h : isDigit b
    · simp [digitsValAux, h, ih]
    · simp [digitsValAux, h]

theorem natToBytesAux_digits (fuel : Nat) :
    ∀ n b, b ∈ natToBytesAux fuel n → 48 ≤ b ∧ b ≤ 57 := by
  induction fuel with
  | zero => intro n b hb; simp [natToBytesAux] at hb
  | succ f ih =>
    intro n b hb
    by_cases h : n < 10
    · simp [natToBytesAux, h] at hb
      omega
    · simp [natToBytesAux, h] at hb
      rcases hb with hb | hb
      · exact ih _ _ hb
      · have : n % 10 < 10 := Nat.mod_lt _ (by omega)
        omega

theorem natToBytesAux_ne_nil (fuel n : Nat) (h : n < fuel) : natToBytesAux fuel n ≠ [] := by
  cases fuel with
  | zero => omega
  | succ f =>
    by_cases h10 : n < 10 <;> simp [natToBytesAux, h10]

theorem digitsValAux_natToBytesAux (fuel : Nat) :
    ∀ n acc, n < fuel →
      digitsValAux (natToBytesAux fuel n) acc =
        some (acc * 10 ^ (natToBytesAux fuel n).length + n) := by
  induction fuel with
  | zero => intro n acc h; omega
  | succ f ih =>
    intro n acc h
    by_cases h10 : n < 10
    · have hd : isDigit (48 + n) = true := by simp [isDigit]; omega
      simp only [natToBytesAux, if_pos h10, digitsValAux, hd, if_true, List.length_cons,
        List.length_nil]
      congr 1
      omega
    · have hdiv : n / 10 < f := by omega
      have hd : isDigit (48 + n % 10) = true := by
        have : n % 10 < 10 := Nat.mod_lt _ (by omega)
        simp [isDigit]; omega
      simp only [natToBytesAux, if_neg h10]
      rw [digitsValAux_append, ih (n / 10) acc hdiv]
      simp only [Option.some_bind, digitsValAux, hd, if_true, List.length_append,
        List.length_cons, List.length_nil]
      congr 1
      have hdm : n / 10 * 10 + n % 10 = n := by omega
      have hpow : 10 ^ ((natToBytesAux f (n / 10)).length + (0 + 1)) =
          10 ^ (natToBytesAux f (n / 10)).length * 10 := by
        simp [pow_succ]
      calc (acc * 10 ^ (natToBytesAux f (n / 10)).length + n / 10) * 10 + (48 + n % 10 - 48)
          = acc * (10 ^ (natToBytesAux f (n / 10)).length * 10) + (n / 10 * 10 + n % 10) := by
            have : 48 + n % 10 - 48 = n % 10 := by omega
            rw [this]; ring
        _ = acc * 10 ^ ((natToBytesAux f (n / 10)).length + (0 + 1)) + n := by
            rw [hpow, hdm]

theorem parseRustNat_le (cap : Nat) (s : Bytes) (n : Nat)
    (h : parseRustNat cap s = some n) : n ≤ cap := by
  unfold parseRustNat at h
  rcases hd : digitsVal (stripPlus s) with _ | w
  · rw [hd] at h; simp at h
  · rw [hd] at h
    by_cases hc : w ≤ cap
    · simp only [if_pos hc, Option.some.injEq] at h
      omega
    · simp [hc] at h

theorem parseRustNat_natToBytes (cap n : Nat) (h : n ≤ cap) :
    parseRustNat cap (natToBytes n) = some n := by
  have hne := natToBytesAux_ne_nil (n + 1) n (by omega)
  rcases hs : natToBytesAux (n + 1) n with _ | ⟨b, t⟩
  · exact absurd hs hne
  · have hb : 48 ≤ b ∧ b ≤ 57 := by
      refine natToBytesAux_digits (n + 1) n b ?_
      rw [hs]; exact List.mem_cons_self _ _
    have hval := digitsValAux_natToBytesAux (n + 1) n 0 (by omega)
    rw [hs] at hval
    have hb43 : ¬ b = 43 := by omega
    unfold parseRustNat natToBytes
    rw [hs]
    have hsp : stripPlus (b :: t) = b :: t := by
      simp [stripPlus, hb43]
    rw [hsp]
    have hdv : digitsVal (b :: t) = digitsValAux (b :: t) 0 := rfl
    rw [hdv, hval]
    simp [h]

theorem parseU8_natToBytes (n : Nat) (h : n ≤ 255) : parseU8 (natToBytes n) = some n :=
  parseRustNat_natToBytes 255 n h

theorem natToBytes_no_dot (n : Nat) : ¬ 46 ∈ natToBytes n := by
  intro hm
  have := natToBytesAux_digits (n + 1) n 46 hm
  omega

theorem natToBytes_ne_nil (n : Nat) : natToBytes n ≠ [] :=
  natToBytesAux_ne_nil (n + 1) n (by omega)

/-! Facts about `findByte`, `take` and `drop` around a separator. -/

theorem findByte_append_cons (c : Nat) (p q : Bytes) (hp : ¬ c ∈ p) :
    findByte c (p ++ c :: q) = some p.length := by
  induction p with
  | nil => simp [findByte]
  | cons b t ih =>
    have hb : ¬ b = c := fun h => hp (by simp [h])
    have ht : ¬ c ∈ t := fun hm => hp (List.mem_cons_of_mem _ hm)
    simp only [List.cons_append, findByte, if_neg hb, List.append_eq]
    rw [ih ht]
    rfl

theorem findByte_eq_none (c : Nat) (s : Bytes) (h : ¬ c ∈ s) : findByte c s = none := by
  induction s with
  | nil => rfl
  | cons b t ih =>
    have hb : ¬ b = c := fun hbc => h (by simp [hbc])
    have ht : ¬ c ∈ t := fun hm => h (List.mem_cons_of_mem _ hm)
    simp [findByte, hb, ih ht]

theorem take_append_cons (p q : Bytes) (c : Nat) : (p ++ c :: q).take p.length = p := by
  induction p with
  | nil => simp
  | cons b t ih => simp [ih]

theorem drop_append_cons (p q : Bytes) (c : Nat) : (p ++ c :: q).drop (p.length + 1) = q := by
  induction p with
  | nil => simp
  | cons b t ih => simp [ih]

/-! The request parser proper (`Cerial::parse_with_limits` and helpers). -/

/-- Model of `str::split_whitespace`: maximal runs of non-whitespace bytes,
with no empty tokens.  `cur` is the reversed token being accumulated. -/
def splitWsAux : Bytes → Bytes → List Bytes
  | [], cur => if cur = [] then [] else [cur.reverse]
  | b :: rest, cur =>
    if isWs b then
      if cur = [] then splitWsAux rest [] else cur.reverse :: splitWsAux rest []
    else splitWsAux rest (b :: cur)

/-- Model of `str::split_whitespace` applied to a whole byte string. -/
def splitWs (s : Bytes) : List Bytes := splitWsAux s []

/-- Model of `str::split(c)`: splits at every occurrence of byte `c`,
keeping empty pieces, always producing at least one piece. -/
def splitByteAux (c : Nat) : Bytes → Bytes → List Bytes
  | [], cur => [cur.reverse]
  | b :: rest, cur =>
    if b = c then cur.reverse :: splitByteAux c rest []
    else splitByteAux c rest (b :: cur)

/-- Model of `str::split(c)` applied to a whole byte string. -/
def splitByte (c : Nat) (s : Bytes) : List Bytes := splitByteAux c s []

/-- Lookup in an association list; models `HashMap::get` (the parser never
depends on the hash map's iteration order, only on lookups). -/
def alook {α : Type} (k : Bytes) : List (Bytes × α) → Option α
  | [] => none
  | (k', v) :: rest => if k' = k then some v else alook k rest

/-- Model of `HashMap::insert`: overwrite the value of an existing key,
otherwise add the binding. -/
def insertOver (m : List (Bytes × Bytes)) (k v : Bytes) : List (Bytes × Bytes) :=
  match m with
  | [] => [(k, v)]
  | (k', v') :: rest => if k' = k then (k, v) :: rest else (k', v') :: insertOver rest k v

/-- Model of `headers.entry(name).or_insert_with(Vec::new).push(value)`:
append `v` to the value sequence of `k`, creating the entry if absent. -/
def pushHeader (hs : List (Bytes × List Bytes)) (k v : Bytes) : List (Bytes × List Bytes) :=
  match hs with
  | [] => [(k, [v])]
  | (k', vs) :: rest =>
    if k' = k then (k', vs ++ [v]) :: rest else (k', vs) :: pushHeader rest k v

/-- Processing of one `&`-separated pair by `Cerial::parse_query_string`
(lines 194-215 of cerial.rs): a pair containing `%` is split at the first
`%` (the incomplete URL-decoding stand-in), otherwise a pair containing
`=` is split at the first `=`, otherwise a non-empty pair is inserted with
an empty value and an empty pair is skipped. -/
def qstep (params : List (Bytes × Bytes)) (pair : Bytes) : List (Bytes × Bytes) :=
  match findByte 37 pair with
  | some pos =>
    let key := pair.take pos
    let value := if pos + 1 < pair.length then pair.drop (pos + 1) else []
    insertOver params key value
  | none =>
    match findByte 61 pair with
    | some pos =>
      let key := pair.take pos
      let value := if pos + 1 < pair.length then pair.drop (pos + 1) else []
      insertOver params key value
    | none => if ¬ pair = [] then insertOver params pair [] else params

/-- Model of `Cerial::parse_query_string`. -/
def parse_query_string (query : Bytes) : List (Bytes × Bytes) :=
  (splitByte 38 query).foldl qstep []

/-- Model of `Cerial::parse_path_and_query`: split the request target at
the first `?`. -/
def parse_path_and_query (path_and_query : Bytes) : Bytes × List (Bytes × Bytes) :=
  match findByte 63 path_and_query with
  | some question_pos =>
    (path_and_query.take question_pos, parse_query_string (path_and_query.drop (question_pos + 1)))
  | none => (path_and_query, [])

/-- Model of `BufRead::read_line`: the returned line is the consumed
prefix up to and including the first LF (or up to EOF), and the second
component is the unread remainder.  An empty line means EOF (a zero-byte
read). -/
def readLine : Bytes → Bytes × Bytes
  | [] => ([], [])
  | b :: rest =>
    if b = 10 then ([10], rest)
    else
      let r := readLine rest
      (b :: r.1, r.2)

/-- Processing of one non-blank header line (lines 121-126 of cerial.rs):
split at the first `:`, lowercase and trim the name, trim the value,
append; a line with no colon is discarded. -/
def processHeaderLine (hs : List (Bytes × List Bytes)) (line : Bytes) :
    List (Bytes × List Bytes) :=
  match findByte 58 line with
  | some colon_pos =>
    pushHeader hs (toLower (trim (line.take colon_pos))) (trim (line.drop (colon_pos + 1)))
  | none => hs

/-- How the header-reading loop of `Cerial::parse_with_limits` ended:
at the blank separator line, at end of stream (zero-byte read), or by
the cumulative header size exceeding the limit. -/
inductive HeadEnd where
  | blank : HeadEnd
  | eof : HeadEnd
  | oversize : HeadEnd
  deriving DecidableEq

/-- Header loop of `Cerial::parse_with_limits` (lines 76-128): read one
line at a time, accumulate its byte length, stop on EOF, on exceeding
`max_header_size` (checked before the blank-line test), or on a blank
line.  Returns the headers collected, how the loop ended, and the unread
remainder of the stream.  `fuel` only bounds the recursion; every
iteration consumes at least one byte, so `fuel = stream length + 1` never
runs out. -/
def headerLoop : Nat → Bytes → Nat → Nat → List (Bytes × List Bytes) →
    List (Bytes × List Bytes) × HeadEnd × Bytes
  | 0, s, _, _, hs => (hs, HeadEnd.eof, s)
  | fuel + 1, s, header_size, max_header_size, hs =>
    let l := readLine s
    if l.1 = [] then (hs, HeadEnd.eof, l.2)
    else if max_header_size < header_size + l.1.length then (hs, HeadEnd.oversize, l.2)
    else if trim l.1 = [] then (hs, HeadEnd.blank, l.2)
    else headerLoop fuel l.2 (header_size + l.1.length) max_header_size (processHeaderLine hs l.1)

/-- Header phase of `Cerial::parse_with_limits`, entered with the stream
positioned after the request line. -/
def readHeadersPhase (s : Bytes) (max_header_size : Nat) :
    List (Bytes × List Bytes) × HeadEnd × Bytes :=
  headerLoop (s.length + 1) s 0 max_header_size []

/-- Byte-string prefix test: `startsWithB s pat` is true when `pat` is a
prefix of `s`. -/
def startsWithB : Bytes → Bytes → Bool
  | _, [] => true
  | [], _ :: _ => false
  | b :: bs, p :: ps => b = p && startsWithB bs ps

/-- Model of Rust `str::contains`: `containsSub s pat` is true when `pat`
occurs as a contiguous substring of `s`. -/
def containsSub (s pat : Bytes) : Bool :=
  match s with
  | [] => startsWithB [] pat
  | b :: rest => startsWithB (b :: rest) pat || containsSub rest pat

/-- Model of `Cerial::extract_content_length_from_map`: first value of the
`content-length` header, trimmed and parsed as `usize`. -/
def extract_content_length_from_map (headers : List (Bytes × List Bytes)) : Option Nat :=
  (alook (str "content-length") headers).bind
    (fun values => values.head?.bind (fun value => parseUsize (trim value)))

/-- Model of `Cerial::is_chunked_headers`: the first value of the
`transfer-encoding` header, lowercased, contains `"chunked"`. -/
def is_chunked_headers (headers : List (Bytes × List Bytes)) : Bool :=
  (((alook (str "transfer-encoding") headers).bind List.head?).map
    (fun encoding => containsSub (toLower encoding) (str "chunked"))).getD false

/-- Trailer consumption after a zero-size chunk (lines 344-351 of
cerial.rs): read and discard lines until a blank line or EOF; returns the
unread remainder. -/
def trailerLoop : Nat → Bytes → Bytes
  | 0, s => s
  | fuel + 1, s =>
    let l := readLine s
    if l.1 = [] then l.2
    else if trim l.1 = [] then l.2
    else trailerLoop fuel l.2

/-- Chunk loop of `Cerial::parse_chunked_body` (lines 324-378): read a
chunk-size line, skip blank size lines, stop on EOF or an unparsable size,
consume trailers on size zero, discard an oversized chunk and continue,
otherwise accumulate the chunk data and consume the trailing CRLF.
`none` models a panicking `unwrap` on `read_exact`.  `fuel` only bounds
the recursion (each iteration consumes at least one byte). -/
def chunkLoop : Nat → Bytes → Bytes → Nat → Nat → Option (Bytes × Bytes)
  | 0, _, _, _, _ => none
  | fuel + 1, s, body, total_size, max_body_size =>
    let l := readLine s
    if l.1 = [] then some (body, l.2)
    else if trim l.1 = [] then chunkLoop fuel l.2 body total_size max_body_size
    else
      match parseHexUsize ((trim l.1).takeWhile (fun b => b != 59)) with
      | none => some (body, l.2)
      | some chunk_size =>
        if chunk_size = 0 then some (body, trailerLoop (l.2.length + 1) l.2)
        else if max_body_size < total_size + chunk_size then
          chunkLoop fuel ((l.2.drop chunk_size).drop 2) body total_size max_body_size
        else if chunk_size ≤ l.2.length then
          if 2 ≤ (l.2.drop chunk_size).length then
            chunkLoop fuel ((l.2.drop chunk_size).drop 2) (body ++ l.2.take chunk_size)
              (total_size + chunk_size) max_body_size
          else none
        else none

/-- Model of `Cerial::parse_chunked_body`: returns the accumulated body
and the unread remainder of the stream, or `none` on a panic. -/
def parse_chunked_body (s : Bytes) (max_body_size : Nat) : Option (Bytes × Bytes) :=
  chunkLoop (s.length + 1) s [] 0 max_body_size

/-- Content-Length body read of `Cerial::parse_with_limits` (lines
97-117): if the declared length exceeds the limit, read only
`min max_body_size content_length` bytes as the body and discard the rest
best-effort; otherwise read exactly `content_length` bytes.  `none`
models a panicking `unwrap` on `read_exact`. -/
def readBodyContentLength (content_length max_body_size : Nat) (s : Bytes) :
    Option (Bytes × Bytes) :=
  if max_body_size < content_length then
    let limited_size := min max_body_size content_length
    if limited_size ≤ s.length then
      some (s.take limited_size, (s.drop limited_size).drop (content_length - limited_size))
    else none
  else
    if content_length ≤ s.length then some (s.take content_length, s.drop content_length)
    else none

/-- Body acquisition of `Cerial::parse_with_limits` (lines 94-118), run
once the blank line has been seen: chunked transfer-encoding first, then
Content-Length, otherwise no body. -/
def acquireBody (headers : List (Bytes × List Bytes)) (max_body_size : Nat) (s : Bytes) :
    Option (Bytes × Bytes) :=
  if is_chunked_headers headers then parse_chunked_body s max_body_size
  else
    match extract_content_length_from_map headers with
    | some content_length => readBodyContentLength content_length max_body_size s
    | none => some ([], s)

/-- Model of `struct Cerial`, the parse result. -/
structure Cerial where
  method : Bytes
  path : Bytes
  query : List (Bytes × Bytes)
  version : HttpVersion
  headers : List (Bytes × List Bytes)
  body : Bytes
  deriving DecidableEq

/-- Model of `Cerial::parse_with_limits`.  The result also carries the
unread remainder of the stream (the position the `TcpStream` is left at);
`none` models a panic of the Rust code. -/
def parse_with_limits (stream : Bytes) (max_header_size max_body_size : Nat) :
    Option (Cerial × Bytes) :=
  let rl := readLine stream
  let parts := splitWs (trim rl.1)
  let version := (HttpVersion.from_string (parts.getD 2 (str "HTTP/1.1"))).getD ⟨1, 1⟩
  let pq := parse_path_and_query (parts.getD 1 [])
  let hp := readHeadersPhase rl.2 max_header_size
  let bodyRes :=
    match hp.2.1 with
    | HeadEnd.blank => acquireBody hp.1 max_body_size hp.2.2
    | HeadEnd.eof => some (([] : Bytes), hp.2.2)
    | HeadEnd.oversize => some (([] : Bytes), hp.2.2)
  bodyRes.map (fun br =>
    ({ method := parts.getD 0 [], path := pq.1, query := pq.2, version := version,
       headers := hp.1, body := br.1 }, br.2))

/-- Model of `Cerial::parse`: the default limits. -/
def Cerial.parse (stream : Bytes) : Option (Cerial × Bytes) :=
  parse_with_limits stream 8192 (1024 * 1024)

/-! Derived semantic views (lines 167-318 of cerial.rs). -/

/-- Model of `Cerial::get_header`: lookup under the lowercased name. -/
def Cerial.get_header (r : Cerial) (name : Bytes) : Option (List Bytes) :=
  alook (toLower name) r.headers

/-- Model of `Cerial::get_header_value`: first value under the lowercased
name. -/
def Cerial.get_header_value (r : Cerial) (name : Bytes) : Option Bytes :=
  (alook (toLower name) r.headers).bind List.head?

/-- Model of `Cerial::get_content_type`: first `content-type` value,
truncated at the first `;`, trimmed, lowercased. -/
def Cerial.get_content_type (r : Cerial) : Option Bytes :=
  (r.get_header_value (str "content-type")).map
    (fun value => toLower (trim (value.takeWhile (fun b => b != 59))))

/-- Model of `Cerial::is_form_data`: the content-type token CONTAINS
`"application/x-www-form-urlencoded"` (Rust `str::contains`). -/
def Cerial.is_form_data (r : Cerial) : Bool :=
  ((r.get_content_type).map
    (fun ct => containsSub ct (str "application/x-www-form-urlencoded"))).getD false

/-- Model of `Cerial::get_form_data`. -/
def Cerial.get_form_data (r : Cerial) : List (Bytes × Bytes) :=
  if r.is_form_data then parse_query_string r.body else []

/-- Model of `Cerial::get_form_field`. -/
def Cerial.get_form_field (r : Cerial) (field_name : Bytes) : Option Bytes :=
  alook field_name r.get_form_data

/-- Model of `Cerial::is_json`: the content-type token CONTAINS
`"application/json"` (Rust `str::contains`). -/
def Cerial.is_json (r : Cerial) : Bool :=
  ((r.get_content_type).map (fun ct => containsSub ct (str "application/json"))).getD false

/-- Model of `Cerial::get_json`.  The JSON text parser is
`serde_json::from_str`, an external crate, so it is taken as a parameter
`jsonParse`; the repository's own code is only the guard around it. -/
def Cerial.get_json {α : Type} (jsonParse : Bytes → Option α) (r : Cerial) : Option α :=
  if r.is_json then jsonParse r.body else none

/-! Helper lemmas shared by the claim theorems. -/

theorem from_string_after_first_slash (p q : Bytes) (hp : ¬ 47 ∈ p) :
    HttpVersion.from_string (p ++ 47 :: q) = HttpVersion.parseMajorMinor q := by
  simp only [HttpVersion.from_string, findByte_append_cons 47 p q hp, drop_append_cons]

theorem parseMajorMinor_render (m n : Nat) (hm : m ≤ 255) (hn : n ≤ 255) :
    HttpVersion.parseMajorMinor (natToBytes m ++ 46 :: natToBytes n) = some ⟨m, n⟩ := by
  have hno : ¬ 46 ∈ natToBytes m := natToBytes_no_dot m
  simp only [HttpVersion.parseMajorMinor, findByte_append_cons 46 _ _ hno,
    take_append_cons, drop_append_cons, parseU8_natToBytes m hm, parseU8_natToBytes n hn]

theorem alook_pushHeader (H : List (Bytes × List Bytes)) (k v : Bytes) :
    alook k (pushHeader H k v) = some ((alook k H).getD [] ++ [v]) := by
  induction H with
  | nil => simp [pushHeader, alook]
  | cons e rest ih =>
    obtain ⟨k', vs⟩ := e
    by_cases hk : k' = k
    · subst hk; simp [pushHeader, alook]
    · simp [pushHeader, alook, hk, ih]

/-! Claim C2: how the version token is split at a slash. -/

/-- C2 counterexample: the claim says the version parser uses the LAST
`/`, so that `"a/b/1.1"` parses to version 1.1; the code uses `str::find`,
the FIRST `/`, and `"a/b/1.1"` fails to parse because `"b/1"` is not an
integer. -/
theorem c2_counterexample :
    HttpVersion.from_string (str "a/b/1.1") = none ∧
    ¬ HttpVersion.from_string (str "a/b/1.1") = some ⟨1, 1⟩ := by decide

/-- C2 (amended): `HttpVersion::from_string` locates the FIRST `/` in the
token; everything after it is split at the first `.` and both sides must
parse as `u8` — so for a token with more than one `/`, the portion used
for major.minor is the part after the first slash. -/
theorem c2_amended_first_slash (p q : Bytes) (hp : ¬ 47 ∈ p) :
    HttpVersion.from_string (p ++ 47 :: q) = HttpVersion.parseMajorMinor q :=
  from_string_after_first_slash p q hp

/-- C2 witness: the amended theorem applied at the token `"HTTP/1.1"`. -/
theorem c2_witness :
    ¬ 47 ∈ str "HTTP" ∧
    HttpVersion.from_string (str "HTTP" ++ 47 :: str "1.1") =
      HttpVersion.parseMajorMinor (str "1.1") :=
  ⟨by decide, c2_amended_first_slash (str "HTTP") (str "1.1") (by decide)⟩

/-! Claim C8: round-trip of the version token. -/

/-- C8 counterexample: the parser accepts the token `"HTTP/01.2"` (a
request-line version token of the shape `HTTP/X.Y`), but re-rendering
with `to_string` yields `"HTTP/1.2"`, not the original string — the
round-trip fails on non-canonical numerals. -/
theorem c8_counterexample :
    HttpVersion.from_string (str "HTTP/01.2") = some ⟨1, 2⟩ ∧
    ¬ HttpVersion.to_string ⟨1, 2⟩ = str "HTTP/01.2" := by decide

/-- C8 (amended): for version tokens whose numerals are in canonical form
(as `to_string` itself renders them, with `major, minor ≤ 255`), parsing
and re-rendering is the identity, and rendering always has the canonical
form `HTTP/<major>.<minor>`. -/
theorem c8_amended_roundtrip (m n : Nat) (hm : m ≤ 255) (hn : n ≤ 255) :
    HttpVersion.from_string (HttpVersion.to_string ⟨m, n⟩) = some ⟨m, n⟩ ∧
    HttpVersion.to_string ⟨m, n⟩ = str "HTTP/" ++ natToBytes m ++ [46] ++ natToBytes n := by
  refine ⟨?_, rfl⟩
  have h5 : str "HTTP/" = [72, 84, 84, 80, 47] := by decide
  have hshape : HttpVersion.to_string ⟨m, n⟩ =
      [72, 84, 84, 80] ++ 47 :: (natToBytes m ++ 46 :: natToBytes n) := by
    show str "HTTP/" ++ natToBytes m ++ [46] ++ natToBytes n = _
    rw [h5]
    simp
  rw [hshape, from_string_after_first_slash _ _ (by decide),
    parseMajorMinor_render m n hm hn]

/-- C8 witness: the amended round-trip applied at version 1.1. -/
theorem c8_witness :
    HttpVersion.from_string (HttpVersion.to_string ⟨1, 1⟩) = some ⟨1, 1⟩ ∧
    HttpVersion.to_string ⟨1, 1⟩ = str "HTTP/" ++ natToBytes 1 ++ [46] ++ natToBytes 1 :=
  c8_amended_roundtrip 1 1 (by decide) (by decide)

/-! Claim C10: the u8 bound on version numerals. -/

/-- C10: every version produced by `HttpVersion::from_string` has major
and minor within the `u8` range `0..=255`; a token whose numeral exceeds
255 fails to parse, and the request parser then substitutes the default
version 1.1 (concretely for `"HTTP/256.1"`). -/
theorem c10_version_bounds :
    (∀ s v, HttpVersion.from_string s = some v → v.major ≤ 255 ∧ v.minor ≤ 255) ∧
    HttpVersion.from_string (str "HTTP/256.1") = none ∧
    Option.map (fun pr => pr.1.version)
      (parse_with_limits (str "GET / HTTP/256.1\r\n\r\n") 8192 1024) = some ⟨1, 1⟩ := by
  refine ⟨?_, by decide, by decide⟩
  intro s v h
  unfold HttpVersion.from_string at h
  split at h
  · unfold HttpVersion.parseMajorMinor at h
    split at h
    · split at h
      · rename_i ma mi hma hmi
        simp only [Option.some.injEq] at h
        subst h
        exact ⟨parseRustNat_le 255 _ ma hma, parseRustNat_le 255 _ mi hmi⟩
      · simp at h
    · simp at h
  · simp at h

/-- C10 witness: the bound theorem applied at the token `"HTTP/2.0"`. -/
theorem c10_witness :
    HttpVersion.from_string (str "HTTP/2.0") = some ⟨2, 0⟩ ∧
    (HttpVersion.mk 2 0).major ≤ 255 ∧ (HttpVersion.mk 2 0).minor ≤ 255 :=
  ⟨by decide, c10_version_bounds.1 (str "HTTP/2.0") ⟨2, 0⟩ (by decide)⟩

/-! Claim C1: the content-type predicates. -/

/-- Request used to refute the exact-match reading of `is_json`: its
content-type token is `"xapplication/json"`, a proper superstring of
`"application/json"`. -/
def c1JsonReq : Cerial :=
  { method := str "POST", path := str "/", query := [], version := ⟨1, 1⟩,
    headers := [(str "content-type", [str "xapplication/json"])], body := str "notjson" }

/-- Request used to refute the exact-match reading of `is_form_data`: its
content-type token is `"xapplication/x-www-form-urlencoded"`. -/
def c1FormReq : Cerial :=
  { method := str "POST", path := str "/", query := [], version := ⟨1, 1⟩,
    headers := [(str "content-type", [str "xapplication/x-www-form-urlencoded"])],
    body := str "x=1" }

/-- C1 counterexample: the claim requires a content-type token that merely
CONTAINS `"application/json"` (resp. the form type) as a proper substring
to make the predicate false; the code uses `str::contains`, so both
predicates are true on these proper superstrings. -/
theorem c1_counterexample :
    Cerial.is_json c1JsonReq = true ∧
    Cerial.get_content_type c1JsonReq = some (str "xapplication/json") ∧
    ¬ str "xapplication/json" = str "application/json" ∧
    Cerial.is_form_data c1FormReq = true ∧
    Cerial.get_content_type c1FormReq = some (str "xapplication/x-www-form-urlencoded") ∧
    ¬ str "xapplication/x-www-form-urlencoded" = str "application/x-www-form-urlencoded" := by
  decide

/-- C1 (amended): `is_form_data` (resp. `is_json`) is true exactly when
the content-type token — stripped of `;`-parameters, trimmed, lowercased —
CONTAINS `"application/x-www-form-urlencoded"` (resp.
`"application/json"`) as a substring, not only when it equals it; and
`get_form_field` / `get_json` return a value only when the respective
predicate is true. -/
theorem c1_amended_contains (r : Cerial) (α : Type) (p : Bytes → Option α)
    (f v : Bytes) (j : α) :
    (r.is_form_data = true ↔
      ∃ ct, r.get_content_type = some ct ∧
        containsSub ct (str "application/x-www-form-urlencoded") = true) ∧
    (r.is_json = true ↔
      ∃ ct, r.get_content_type = some ct ∧ containsSub ct (str "application/json") = true) ∧
    (r.get_form_field f = some v → r.is_form_data = true) ∧
    (Cerial.get_json p r = some j → r.is_json = true) := by
  refine ⟨?_, ?_, ?_, ?_⟩
  · cases hct : r.get_content_type <;> simp [Cerial.is_form_data, hct]
  · cases hct : r.get_content_type <;> simp [Cerial.is_json, hct]
  · intro h
    by_cases hf : r.is_form_data = true
    · exact hf
    · simp only [Cerial.get_form_field, Cerial.get_form_data, hf, if_false] at h
      simp [alook] at h
  · intro h
    by_cases hj : r.is_json = true
    · exact hj
    · simp only [Cerial.get_json, hj, if_false] at h
      exact absurd h (by simp)

/-- C1 witness: the amended theorem applied at the concrete form-data
request. -/
theorem c1_witness :
    (c1FormReq.is_form_data = true ↔
      ∃ ct, c1FormReq.get_content_type = some ct ∧
        containsSub ct (str "application/x-www-form-urlencoded") = true) ∧
    (c1FormReq.is_json = true ↔
      ∃ ct, c1FormReq.get_content_type = some ct ∧
        containsSub ct (str "application/json") = true) ∧
    (c1FormReq.get_form_field (str "x") = some (str "1") → c1FormReq.is_form_data = true) ∧
    (Cerial.get_json (fun _ => (none : Option Unit)) c1FormReq = some () →
      c1FormReq.is_json = true) :=
  c1_amended_contains c1FormReq Unit (fun _ => none) (str "x") (str "1") ()

/-! Claim C3: pairs without an equals sign in the query decoder. -/

/-- C3 counterexample: the claim says every pair with no `=` and no `%` is
inserted with an empty value, INCLUDING the empty pair produced by a lone
`&`; the code skips empty pairs, so `"&"` produces an empty mapping and
the empty key is absent. -/
theorem c3_counterexample :
    parse_query_string (str "&") = [] ∧
    alook [] (parse_query_string (str "&")) = none := by decide

/-- C3 (amended): in the query/form decoder, every NON-empty
`&`-separated pair containing no `=` and no `%` is inserted with the pair
as key and the empty string as value; the empty pair is skipped, not
inserted.  The spec's own example still holds: in
`"q=rust&empty"` the pair `empty` maps to the empty string. -/
theorem c3_amended_nonempty_pairs (params : List (Bytes × Bytes)) (pair : Bytes)
    (h37 : ¬ 37 ∈ pair) (h61 : ¬ 61 ∈ pair) :
    qstep params pair = (if pair = [] then params else insertOver params pair []) ∧
    alook (str "empty") (parse_query_string (str "q=rust&empty")) = some [] := by
  constructor
  · simp only [qstep, findByte_eq_none 37 pair h37, findByte_eq_none 61 pair h61]
    by_cases hp : pair = []
    · simp [hp]
    · simp [hp]
  · decide

/-- C3 witness: the amended theorem applied at the pair `"empty"`. -/
theorem c3_witness :
    qstep [] (str "empty") =
      (if str "empty" = ([] : Bytes) then [] else insertOver [] (str "empty") []) ∧
    alook (str "empty") (parse_query_string (str "q=rust&empty")) = some [] :=
  c3_amended_nonempty_pairs [] (str "empty") (by decide) (by decide)

/-! Claim C7: case-insensitive, multi-valued header storage. -/

/-- C7: header lookup is case-insensitive (`get_header` and
`get_header_value` lowercase the name, and names are lowercased before
insertion), and inserting a header appends its value to the name's
sequence, preserving arrival order and multiplicity; concretely, a parse
with `Content-Type: text/html` then `content-type: text/plain` stores
both values in order under one key and any case variant of the name finds
them. -/
theorem c7_header_case_insensitive (H : List (Bytes × List Bytes)) (r : Cerial)
    (n1 n2 v : Bytes) (hlow : toLower n1 = toLower n2) :
    (r.get_header n1 = r.get_header n2 ∧ r.get_header_value n1 = r.get_header_value n2) ∧
    alook (toLower n2) (pushHeader H (toLower n1) v) =
      some ((alook (toLower n1) H).getD [] ++ [v]) ∧
    Option.map (fun pr => (Cerial.get_header pr.1 (str "CONTENT-TYPE"),
        Cerial.get_header_value pr.1 (str "Content-Type")))
      (parse_with_limits
        (str "GET / HTTP/1.1\r\nContent-Type: text/html\r\ncontent-type: text/plain\r\n\r\n")
        8192 1024) =
      some (some [str "text/html", str "text/plain"], some (str "text/html")) := by
  refine ⟨⟨?_, ?_⟩, ?_, by decide⟩
  · simp only [Cerial.get_header, hlow]
  · simp only [Cerial.get_header_value, hlow]
  · rw [← hlow]
    exact alook_pushHeader H (toLower n1) v

/-- C7 witness: the case-insensitivity theorem applied at the names
`"Content-Type"` and `"CONTENT-type"` and an empty header map. -/
theorem c7_witness :
    (c1JsonReq.get_header (str "Content-Type") = c1JsonReq.get_header (str "CONTENT-type") ∧
      c1JsonReq.get_header_value (str "Content-Type") =
        c1JsonReq.get_header_value (str "CONTENT-type")) ∧
    alook (toLower (str "CONTENT-type")) (pushHeader [] (toLower (str "Content-Type")) (str "a")) =
      some ((alook (toLower (str "Content-Type")) []).getD [] ++ [str "a"]) ∧
    Option.map (fun pr => (Cerial.get_header pr.1 (str "CONTENT-TYPE"),
        Cerial.get_header_value pr.1 (str "Content-Type")))
      (parse_with_limits
        (str "GET / HTTP/1.1\r\nContent-Type: text/html\r\ncontent-type: text/plain\r\n\r\n")
        8192 1024) =
      some (some [str "text/html", str "text/plain"], some (str "text/html")) :=
  c7_header_case_insensitive [] c1JsonReq (str "Content-Type") (str "CONTENT-type") (str "a")
    (by decide)

/-! Claim C4: Content-Length larger than the body limit. -/

/-- C4: when the collected headers end at the blank line, are not chunked,
and declare a content-length `cl` strictly greater than `max_body_size`
(with at least `max_body_size` bytes available on the stream), the parse
returns a fully constructed request whose body is exactly the first
`max_body_size` bytes of the body section, the stream is left after the
full `cl` declared bytes (the remainder was discarded best-effort), and no
error reaches the caller. -/
theorem c4_content_length_truncation (stream : Bytes) (maxH maxB cl : Nat)
    (H : List (Bytes × List Bytes)) (s2 : Bytes)
    (hhead : readHeadersPhase (readLine stream).2 maxH = (H, HeadEnd.blank, s2))
    (hchunk : is_chunked_headers H = false)
    (hcl : extract_content_length_from_map H = some cl)
    (hover : maxB < cl)
    (havail : maxB ≤ s2.length) :
    ∃ r rest, parse_with_limits stream maxH maxB = some (r, rest) ∧
      r.body = s2.take maxB ∧ rest = s2.drop cl := by
  have hmin : min maxB cl = maxB := Nat.min_eq_left (Nat.le_of_lt hover)
  have hbody : readBodyContentLength cl maxB s2 = some (s2.take maxB, s2.drop cl) := by
    unfold readBodyContentLength
    rw [if_pos hover]
    simp only [hmin, if_pos havail]
    rw [List.drop_drop]
    congr 3
    omega
  have hacq : acquireBody H maxB s2 = some (s2.take maxB, s2.drop cl) := by
    unfold acquireBody
    rw [hchunk, hcl]
    simp only [Bool.false_eq_true, if_false]
    exact hbody
  simp only [parse_with_limits]
  rw [hhead]
  simp only [hacq, Option.map_some]
  exact ⟨_, _, rfl, rfl, rfl⟩

/-- Stream used as the C4 witness: content-length 10, body limit 5. -/
def c4Stream : Bytes := str "GET /a HTTP/1.1\r\ncontent-length: 10\r\n\r\n0123456789xyz"

/-- Body section of the C4 witness stream. -/
def c4Body : Bytes := str "0123456789xyz"

/-- C4 witness: the truncation theorem applied at the concrete stream
with `max_body_size = 5` and `Content-Length: 10`. -/
theorem c4_witness :
    ∃ r rest, parse_with_limits c4Stream 8192 5 = some (r, rest) ∧
      r.body = c4Body.take 5 ∧ rest = c4Body.drop 10 :=
  c4_content_length_truncation c4Stream 8192 5 10
    [(str "content-length", [str "10"])] c4Body
    (by decide) (by decide) (by decide) (by decide) (by decide)

/-! Claim C5: chunked transfer-encoding takes priority. -/

/-- C5: when the collected headers pass the chunked test (first
`transfer-encoding` value, lowercased, contains `"chunked"`), the body
comes from the chunked decoder and any `content-length` header is ignored
for framing; the content-length path is consulted only when the chunked
test is false. -/
theorem c5_chunked_priority (stream : Bytes) (maxH maxB : Nat)
    (H : List (Bytes × List Bytes)) (s2 b rest : Bytes)
    (hhead : readHeadersPhase (readLine stream).2 maxH = (H, HeadEnd.blank, s2)) :
    (is_chunked_headers H = true → parse_chunked_body s2 maxB = some (b, rest) →
      ∃ r, parse_with_limits stream maxH maxB = some (r, rest) ∧ r.body = b) ∧
    (is_chunked_headers H = false →
      acquireBody H maxB s2 =
        match extract_content_length_from_map H with
        | some cl => readBodyContentLength cl maxB s2
        | none => some ([], s2)) := by
  constructor
  · intro hch hcb
    have hacq : acquireBody H maxB s2 = some (b, rest) := by
      unfold acquireBody
      rw [hch]
      simp only [if_true]
      exact hcb
    simp only [parse_with_limits]
    rw [hhead]
    simp only [hacq, Option.map_some]
    exact ⟨_, rfl, rfl⟩
  · intro hch
    unfold acquireBody
    rw [hch]
    simp

/-- Stream used as the C5 witness: both `Transfer-Encoding: chunked` and a
(large, bogus) `Content-Length` are present; the chunked decoder wins. -/
def c5Stream : Bytes :=
  str "POST /u HTTP/1.1\r\nTransfer-Encoding: chunked\r\nContent-Length: 999\r\n\r\n4\r\nWiki\r\n5\r\npedia\r\n0\r\n\r\n"

/-- Body section of the C5 witness stream. -/
def c5BodySection : Bytes := str "4\r\nWiki\r\n5\r\npedia\r\n0\r\n\r\n"

/-- C5 witness: the priority theorem applied at the concrete chunked
stream; the decoded body is `"Wikipedia"` even though `Content-Length`
says 999. -/
theorem c5_witness :
    ∃ r, parse_with_limits c5Stream 8192 1024 = some (r, []) ∧ r.body = str "Wikipedia" :=
  (c5_chunked_priority c5Stream 8192 1024
    [(str "transfer-encoding", [str "chunked"]), (str "content-length", [str "999"])]
    c5BodySection (str "Wikipedia") []
    (by decide)).1 (by decide) (by decide)

/-! Claim C6: oversized chunks are dropped and decoding continues. -/

/-- C6: in the chunked decoder, a chunk whose size `cs` would push the
running total past `max_body_size` is discarded — its `cs` data bytes plus
the trailing CRLF are consumed from the stream without being appended to
the body — and decoding continues with the next chunk-size line
(concretely, with limit 5, chunks `7;3` yield the body `"BBB"`: the
oversized first chunk is dropped, the later small chunk still
accumulates). -/
theorem c6_chunk_overflow_continue (fuel : Nat) (s body : Bytes) (total maxB cs : Nat)
    (hline : ¬ (readLine s).1 = [])
    (hblank : ¬ trim (readLine s).1 = [])
    (hsize : parseHexUsize ((trim (readLine s).1).takeWhile (fun b => b != 59)) = some cs)
    (hcs : ¬ cs = 0)
    (hover : maxB < total + cs) :
    chunkLoop (fuel + 1) s body total maxB =
      chunkLoop fuel (((readLine s).2.drop cs).drop 2) body total maxB ∧
    parse_chunked_body (str "7\r\nAAAAAAA\r\n3\r\nBBB\r\n0\r\n\r\n") 5 = some (str "BBB", []) := by
  constructor
  · simp only [chunkLoop, if_neg hline, if_neg hblank, hsize, if_neg hcs, if_pos hover]
  · decide

/-- C6 witness: one step of the decoder at an oversized chunk (size 5,
limit 3), plus the concrete drop-and-continue run. -/
theorem c6_witness :
    chunkLoop 2 (str "5\r\nAAAAA\r\n") [] 0 3 =
      chunkLoop 1 (((readLine (str "5\r\nAAAAA\r\n")).2.drop 5).drop 2) [] 0 3 ∧
    parse_chunked_body (str "7\r\nAAAAAAA\r\n3\r\nBBB\r\n0\r\n\r\n") 5 = some (str "BBB", []) :=
  c6_chunk_overflow_continue 1 (str "5\r\nAAAAA\r\n") [] 0 3 5
    (by decide) (by decide) (by decide) (by decide) (by decide)

/-! Claim C9: no body when the header section does not end at a blank line. -/

/-- C9: if the header loop terminates other than at the blank line —
either end of stream or the cumulative header size exceeding
`max_header_size` — then body acquisition never runs: the parse still
returns a request, its body is empty, no further bytes are consumed from
the stream, and the headers collected before the cutoff (including any
content-length or transfer-encoding header) are kept. -/
theorem c9_headers_cutoff_no_body (stream : Bytes) (maxH maxB : Nat)
    (H : List (Bytes × List Bytes)) (e : HeadEnd) (s2 : Bytes)
    (hhead : readHeadersPhase (readLine stream).2 maxH = (H, e, s2))
    (hne : ¬ e = HeadEnd.blank) :
    ∃ r, parse_with_limits stream maxH maxB = some (r, s2) ∧ r.body = [] ∧ r.headers = H := by
  cases e with
  | blank => exact absurd rfl hne
  | eof =>
    simp only [parse_with_limits]
    rw [hhead]
    exact ⟨_, rfl, rfl, rfl⟩
  | oversize =>
    simp only [parse_with_limits]
    rw [hhead]
    exact ⟨_, rfl, rfl, rfl⟩

/-- Stream used as the C9 witness: a content-length header was already
collected, but the stream closes before the blank line. -/
def c9Stream : Bytes := str "GET / HTTP/1.1\r\ncontent-length: 5\r\nfoo: bar"

/-- C9 witness: the cutoff theorem applied at the concrete truncated
stream (EOF mid-headers, content-length present). -/
theorem c9_witness :
    ∃ r, parse_with_limits c9Stream 8192 1024 = some (r, []) ∧ r.body = [] ∧
      r.headers = [(str "content-length", [str "5"]), (str "foo", [str "bar"])] :=
  c9_headers_cutoff_no_body c9Stream 8192 1024
    [(str "content-length", [str "5"]), (str "foo", [str "bar"])] HeadEnd.eof []
    (by decide) (by decide)
